import Mathlib

/-!
Verification of the FieldCapture offline-sync layer.

Shallow embedding of the job store, time-session engine and sync engine from
`src/src/lib/database.types.ts` (SyncService, storage layer v2),
`src/src/components/Timer.tsx` (SessionEditor) and `src/unnamed/part_000`
(quick start/stop handlers).  Timestamps are modelled as `Int` milliseconds;
ISO-8601 strings in the source convert to and compare like their millisecond
values, so the `Int` order is the string order used by the code.
-/

namespace FieldCapture

/-- A time session, as stored on a local `Job`
(`TimeSession` usage in `storage.ts`: `createSession`, `migrateJob`).
`endedAt`/`durationMin` are `null` while the session is open. -/
structure TimeSession where
  id : String
  startedAt : Int
  endedAt : Option Int
  durationMin : Option Int
deriving Repr, DecidableEq

/-- A local job record (the sessions-era `Job` shape used throughout
`storage.ts` v2 and `sync.ts`).  `synced = 0` means dirty (locally modified,
not confirmed uploaded); a nonzero value is the ms timestamp of the last
confirmed sync. -/
structure Job where
  id : String
  clientRef : String
  clientName : String
  createdAt : Int
  sessions : List TimeSession
  totalDurationMin : Int
  notes : String
  synced : Int
  priority : Int
  completed : Bool
  completedAt : Option Int
  location : String
deriving Repr, DecidableEq

/-- A remote `jobs` table row (`Database.public.Tables.jobs.Row` in
`database.types.ts` and `supabase-schema.sql`).  `updated_at` is
server-maintained; `synced_at` is written by the pushing client.
Timestamps in ms; `synced_at` is `none` when the column is null/empty. -/
structure SupabaseJobRow where
  id : String
  user_id : String
  client_ref : String
  client_name : String
  notes : String
  priority : Int
  location : String
  completed : Bool
  completed_at : Option Int
  created_at : Int
  updated_at : Int
  synced_at : Option Int
deriving Repr, DecidableEq

/-- `createSession` from `storage.ts`: a fresh open session.  The source uses
`crypto.randomUUID()` and `Date.now()`; both are parameters here. -/
def createSession (id : String) (now : Int) : TimeSession :=
  { id := id, startedAt := now, endedAt := none, durationMin := none }

/-- `endSession` from `storage.ts`: closes a session at `now`.
`durationMin = Math.floor((endedAt - startedAt) / 1000 / 60)` and the result
is replaced by `1` when it is not positive (`durationMin > 0 ? durationMin : 1`).
`Math.floor` of the real quotient is `Int.fdiv` by 60000. -/
def endSession (now : Int) (session : TimeSession) : TimeSession :=
  let durationMin := Int.fdiv (now - session.startedAt) 60000
  { session with
      endedAt := some now
      durationMin := some (if 0 < durationMin then durationMin else 1) }

/-- `calculateTotalDuration` from `storage.ts`: sum of `durationMin || 0`
over the session list. -/
def calculateTotalDuration (sessions : List TimeSession) : Int :=
  sessions.foldl (fun total session => total + session.durationMin.getD 0) 0

/-- Modelled from the spec: `getActiveSession` is imported from
`@/lib/storage` by `src/unnamed/part_000` but its definition is not under
`src/`.  Per the spec, at most one session per job is open (no end time) and
the active session is that open one, so it is the first session whose
`endedAt` is null. -/
def getActiveSession (job : Job) : Option TimeSession :=
  job.sessions.find? (fun session => session.endedAt.isNone)

/-- `handleQuickStop` from `src/unnamed/part_000` (lines 200-215): ends the
job's active session, replaces it in the session list by id, recomputes the
cached total and re-marks the job dirty (`synced = 0`). -/
def handleQuickStop (now : Int) (job : Job) : Job :=
  match getActiveSession job with
  | none => job
  | some activeSession =>
      let endedSession := endSession now activeSession
      let sessions := job.sessions.map
        (fun session => if session.id = endedSession.id then endedSession else session)
      { job with
          sessions := sessions
          totalDurationMin := calculateTotalDuration sessions
          synced := 0 }

/-- `SessionEditor.handleSave` from `src/src/components/Timer.tsx`
(lines 212-226), after the date/time input strings have been parsed to ms
timestamps.  `durationMin = Math.floor((endedAt - startedAt)/1000/60)` when an
end is given, else `null`; the saved field is
`durationMin && durationMin > 0 ? durationMin : 1`, so null, zero and negative
all become `1`.  The handler always calls `onSave`; there is no error path. -/
def sessionEditorSave (session : TimeSession) (startedAt : Int)
    (endedAt : Option Int) : TimeSession :=
  let durationMin : Option Int :=
    endedAt.map (fun e => Int.fdiv (e - startedAt) 60000)
  { session with
      startedAt := startedAt
      endedAt := endedAt
      durationMin := some (match durationMin with
        | some d => if 0 < d then d else 1
        | none => 1) }

/-- `SyncService.supabaseToLocalJob` from `sync.ts` (lines 373-388): converts
a remote row to the local shape.  Sessions are reset to `[]` and the cached
total to `0` (source comment: sessions stored in notes for now); `synced` is
the ms value of `synced_at`, or `0` when the column is null. -/
def supabaseToLocalJob (record : SupabaseJobRow) : Job :=
  { id := record.id
    clientRef := record.client_ref
    clientName := record.client_name
    createdAt := record.created_at
    sessions := []
    totalDurationMin := 0
    notes := record.notes
    synced := record.synced_at.getD 0
    priority := record.priority
    completed := record.completed
    completedAt := record.completed_at
    location := record.location }

/-- The shared merge step of `syncFromServer`'s loop body and
`handleRealtimeUpdate`'s INSERT/UPDATE branch: find the first local job with
the incoming id; replace it only when the incoming `synced` is strictly
greater (`(job.synced || 0) > (localJob.synced || 0)`), otherwise keep the
local one; push at the end when the id is absent. -/
def mergeJob (job : Job) : List Job → List Job
  | [] => [job]
  | localJob :: rest =>
      if localJob.id = job.id then
        if localJob.synced < job.synced then job :: rest else localJob :: rest
      else localJob :: mergeJob job rest

/-- The DELETE branch of `handleRealtimeUpdate`: splice out the first local
job whose id matches the deleted row's id. -/
def removeFirstById (id : String) : List Job → List Job
  | [] => []
  | localJob :: rest =>
      if localJob.id = id then rest else localJob :: removeFirstById id rest

/-- Realtime change-feed event kinds (`payload.eventType`). -/
inductive RealtimeEventType
  | INSERT
  | UPDATE
  | DELETE
deriving Repr, DecidableEq

/-- `SyncService.handleRealtimeUpdate` from `sync.ts` (lines 151-187), acting
on the local job list.  INSERT/UPDATE convert the new record with
`supabaseToLocalJob` and merge it exactly as the pull loop does (the
comparison `new Date(job.synced || 0).getTime() > (localJob.synced || 0)` is
the same numeric comparison); DELETE removes the first matching id. -/
def handleRealtimeUpdate (localJobs : List Job) (eventType : RealtimeEventType)
    (newRecord : SupabaseJobRow) (oldId : String) : List Job :=
  match eventType with
  | .INSERT => mergeJob (supabaseToLocalJob newRecord) localJobs
  | .UPDATE => mergeJob (supabaseToLocalJob newRecord) localJobs
  | .DELETE => removeFirstById oldId localJobs

/-- Sync-engine state: the local job list and the
`SyncService.lastSyncAt` watermark (ms). -/
structure SyncState where
  jobs : List Job
  lastSyncAt : Int
deriving Repr, DecidableEq

/-- `lastSyncAt` is initialized to `new Date(0).toISOString()` (`sync.ts`
line 101), i.e. the epoch. -/
def initialLastSyncAt : Int := 0

/-- One iteration of the `syncFromServer` loop (lines 239-257): merge the
row into the local list and advance the watermark when this row's
`updated_at` is strictly greater. -/
def applyPullRow (st : SyncState) (row : SupabaseJobRow) : SyncState :=
  { jobs := mergeJob (supabaseToLocalJob row) st.jobs
    lastSyncAt :=
      if st.lastSyncAt < row.updated_at then row.updated_at else st.lastSyncAt }

/-- The whole `syncFromServer` merge loop over a fetched batch. -/
def applyPullBatch (st : SyncState) (rows : List SupabaseJobRow) : SyncState :=
  rows.foldl applyPullRow st

/-- Insertion step of the server-side `order('updated_at', ascending)`. -/
def insertByUpdatedAt (row : SupabaseJobRow) :
    List SupabaseJobRow → List SupabaseJobRow
  | [] => [row]
  | first :: rest =>
      if first.updated_at ≤ row.updated_at then first :: insertByUpdatedAt row rest
      else row :: first :: rest

/-- Sort a remote batch ascending by `updated_at`. -/
def sortByUpdatedAt : List SupabaseJobRow → List SupabaseJobRow
  | [] => []
  | first :: rest => insertByUpdatedAt first (sortByUpdatedAt rest)

/-- The pull fetch (`sync.ts` lines 224-229): rows with
`updated_at > lastSyncAt`, ordered ascending by `updated_at`.  The `user_id`
filter is left out: `remote` stands for the current user's rows. -/
def fetchSince (remote : List SupabaseJobRow) (watermark : Int) :
    List SupabaseJobRow :=
  sortByUpdatedAt (remote.filter (fun row => watermark < row.updated_at))

/-- `SyncService.syncFromServer` (lines 209-277): on a successful fetch,
apply the merge loop to the fetched batch; on a fetch error the `catch`
branch leaves jobs and watermark untouched. -/
def syncFromServer (remote : List SupabaseJobRow) (fetchOk : Bool)
    (st : SyncState) : SyncState :=
  if fetchOk then applyPullBatch st (fetchSince remote st.lastSyncAt) else st

/-- `SyncService.syncToServer` (lines 314-346) on the job list: every job
with `synced = 0` is uploaded individually; on a successful acknowledgment
its `synced` is set to `Date.now()`, on a per-job error the loop `continue`s
and the job is left unchanged.  `uploadOk` tells which ids are acknowledged;
`now` stands for `Date.now()`. -/
def syncToServer (uploadOk : String → Bool) (now : Int) (jobs : List Job) :
    List Job :=
  jobs.map (fun job =>
    if job.synced = 0 ∧ uploadOk job.id then { job with synced := now } else job)

/-- `SyncService.forceSync` (lines 195-207): push (`syncToServer`) first,
then pull (`syncFromServer`).  The trailing broadcast does not touch local
state. -/
def forceSync (uploadOk : String → Bool) (now : Int)
    (remote : List SupabaseJobRow) (fetchOk : Bool) (st : SyncState) :
    SyncState :=
  syncFromServer remote fetchOk { st with jobs := syncToServer uploadOk now st.jobs }

/-- A pending-sync queue entry: `{ id, type: 'job', timestamp }` in the
`syncQueue` IndexedDB store (keyPath `id`); the constant `type` field is
elided. -/
structure SyncQueueEntry where
  id : String
  timestamp : Int
deriving Repr, DecidableEq

/-- Local store state: the `jobs` store and the `syncQueue` store. -/
structure StoreState where
  jobs : List Job
  syncQueue : List SyncQueueEntry
deriving Repr, DecidableEq

/-- IndexedDB `put` on the `jobs` store (keyPath `id`): replace the record
with the same key, or insert. -/
def putJobRecord (job : Job) : List Job → List Job
  | [] => [job]
  | j :: rest => if j.id = job.id then job :: rest else j :: putJobRecord job rest

/-- IndexedDB `put` on the `syncQueue` store (keyPath `id`). -/
def putQueueEntry (entry : SyncQueueEntry) :
    List SyncQueueEntry → List SyncQueueEntry
  | [] => [entry]
  | e :: rest =>
      if e.id = entry.id then entry :: rest else e :: putQueueEntry entry rest

/-- `addToSyncQueue` from `storage.ts` (lines 899-902):
`db.put('syncQueue', { id: jobId, type: 'job', timestamp: Date.now() })`. -/
def addToSyncQueue (jobId : String) (now : Int)
    (queue : List SyncQueueEntry) : List SyncQueueEntry :=
  putQueueEntry ⟨jobId, now⟩ queue

/-- `removeFromSyncQueue` from `storage.ts` (lines 909-912):
`db.delete('syncQueue', id)`.  Defined in the source but never called by any
caller in the repository. -/
def removeFromSyncQueue (id : String) (queue : List SyncQueueEntry) :
    List SyncQueueEntry :=
  queue.filter (fun e => e.id ≠ id)

/-- `createJob` from `storage.ts` (lines 736-740): put the job, then add its
id to the sync queue. -/
def createJob (job : Job) (now : Int) (st : StoreState) : StoreState :=
  { jobs := putJobRecord job st.jobs
    syncQueue := addToSyncQueue job.id now st.syncQueue }

/-- `updateJob` from `storage.ts` (lines 742-746): identical body to
`createJob`. -/
def updateJob (job : Job) (now : Int) (st : StoreState) : StoreState :=
  { jobs := putJobRecord job st.jobs
    syncQueue := addToSyncQueue job.id now st.syncQueue }

/-- `SyncService.syncToServer` at store level: it reads and rewrites the
`jobs` store only; no statement in its body (lines 314-346) touches the
`syncQueue` store. -/
def syncToServerStore (uploadOk : String → Bool) (now : Int)
    (st : StoreState) : StoreState :=
  { st with jobs := syncToServer uploadOk now st.jobs }

/-- The jobs component of the pull merge loop: fold `mergeJob` of the
converted rows over the local list. -/
def foldMergeRows (jobs : List Job) (rows : List SupabaseJobRow) : List Job :=
  rows.foldl (fun js row => mergeJob (supabaseToLocalJob row) js) jobs

/-- The watermark component of the pull merge loop: running maximum of the
previous watermark and the rows' `updated_at` values. -/
def foldWatermark (watermark : Int) (rows : List SupabaseJobRow) : Int :=
  rows.foldl (fun w row => max w row.updated_at) watermark

/-- `synced` of the first job in the list with the given id (the entry the
source's `findIndex` locates), if any. -/
def firstSynced (id : String) : List Job → Option Int
  | [] => none
  | j :: rest => if j.id = id then some j.synced else firstSynced id rest

section Lemmas

/-- The upserted queue entry is present after `putQueueEntry`. -/
theorem mem_putQueueEntry_self (entry : SyncQueueEntry) :
    ∀ queue : List SyncQueueEntry, entry ∈ putQueueEntry entry queue := by
  intro queue
  induction queue with
  | nil => simp [putQueueEntry]
  | cons e rest ih =>
      simp only [putQueueEntry]
      split
      · exact List.mem_cons_self _ _
      · exact List.mem_cons_of_mem _ ih

/-- One pull-loop iteration splits into the merge step and a `max` on the
watermark. -/
theorem applyPullRow_eq (st : SyncState) (row : SupabaseJobRow) :
    applyPullRow st row =
      ⟨mergeJob (supabaseToLocalJob row) st.jobs,
        max st.lastSyncAt row.updated_at⟩ := by
  simp only [applyPullRow]
  congr 1
  omega

/-- The pull merge loop acts componentwise: `foldMergeRows` on the jobs and
`foldWatermark` on the watermark. -/
theorem applyPullBatch_eq (rows : List SupabaseJobRow) (st : SyncState) :
    applyPullBatch st rows =
      ⟨foldMergeRows st.jobs rows, foldWatermark st.lastSyncAt rows⟩ := by
  induction rows generalizing st with
  | nil => rfl
  | cons row rest ih =>
      simp only [applyPullBatch, List.foldl_cons, applyPullRow_eq] at *
      rw [ih]
      rfl

/-- The watermark never decreases over a merge loop. -/
theorem le_foldWatermark (rows : List SupabaseJobRow) (watermark : Int) :
    watermark ≤ foldWatermark watermark rows := by
  induction rows generalizing watermark with
  | nil => exact le_refl _
  | cons row rest ih =>
      simp only [foldWatermark, List.foldl_cons] at *
      exact le_trans (le_max_left _ _) (ih _)

/-- Every row of the batch is bounded by the final watermark. -/
theorem mem_le_foldWatermark (rows : List SupabaseJobRow) (watermark : Int)
    (row : SupabaseJobRow) (h : row ∈ rows) :
    row.updated_at ≤ foldWatermark watermark rows := by
  induction rows generalizing watermark with
  | nil => cases h
  | cons first rest ih =>
      rw [List.mem_cons] at h
      simp only [foldWatermark, List.foldl_cons] at *
      rcases h with h | h
      · exact le_trans (h ▸ le_max_right _ _) (le_foldWatermark _ _)
      · exact ih _ h

/-- A watermark already above the whole batch is left unchanged. -/
theorem foldWatermark_eq_self (rows : List SupabaseJobRow) (watermark : Int)
    (h : ∀ row ∈ rows, row.updated_at ≤ watermark) :
    foldWatermark watermark rows = watermark := by
  induction rows with
  | nil => rfl
  | cons first rest ih =>
      simp only [foldWatermark, List.foldl_cons] at *
      rw [max_eq_left (h first (by simp))]
      exact ih (fun row hr => h row (by simp [hr]))

/-- Members of a merged list are either the merged job or old members. -/
theorem mem_of_mem_mergeJob (job : Job) (l : List Job) (x : Job)
    (h : x ∈ mergeJob job l) : x = job ∨ x ∈ l := by
  induction l with
  | nil =>
      simp only [mergeJob, List.mem_singleton] at h
      exact Or.inl h
  | cons first rest ih =>
      by_cases hid : first.id = job.id
      · by_cases hlt : first.synced < job.synced
        · simp only [mergeJob, if_pos hid, if_pos hlt, List.mem_cons] at h
          rcases h with h | h
          · exact Or.inl h
          · exact Or.inr (List.mem_cons_of_mem _ h)
        · simp only [mergeJob, if_pos hid, if_neg hlt] at h
          exact Or.inr h
      · simp only [mergeJob, if_neg hid, List.mem_cons] at h
        rcases h with h | h
        · exact Or.inr (by rw [h]; exact List.mem_cons_self _ _)
        · rcases ih h with h | h
          · exact Or.inl h
          · exact Or.inr (List.mem_cons_of_mem _ h)

/-- A member whose `synced` is at least that of any same-id merged job
survives the merge. -/
theorem mem_mergeJob_of_mem (job : Job) (l : List Job) (x : Job)
    (hx : x ∈ l) (hsync : job.id = x.id → job.synced ≤ x.synced) :
    x ∈ mergeJob job l := by
  induction l with
  | nil => cases hx
  | cons first rest ih =>
      rw [List.mem_cons] at hx
      by_cases hid : first.id = job.id
      · by_cases hlt : first.synced < job.synced
        · simp only [mergeJob, if_pos hid, if_pos hlt, List.mem_cons]
          rcases hx with hx | hx
          · exfalso
            have hxid : job.id = x.id := by rw [hx, ← hid]
            have hle := hsync hxid
            rw [hx] at hle
            omega
          · exact Or.inr hx
        · simp only [mergeJob, if_pos hid, if_neg hlt, List.mem_cons]
          exact hx
      · simp only [mergeJob, if_neg hid, List.mem_cons]
        rcases hx with hx | hx
        · exact Or.inl hx
        · exact Or.inr (ih hx)

/-- After merging `job`, the first same-id entry exists and its `synced` is
at least `job.synced`. -/
theorem firstSynced_mergeJob_self (job : Job) (l : List Job) :
    ∃ s, firstSynced job.id (mergeJob job l) = some s ∧ job.synced ≤ s := by
  induction l with
  | nil => exact ⟨job.synced, by simp [mergeJob, firstSynced], le_refl _⟩
  | cons first rest ih =>
      by_cases hid : first.id = job.id
      · by_cases hlt : first.synced < job.synced
        · exact ⟨job.synced, by simp [mergeJob, hid, hlt, firstSynced], le_refl _⟩
        · exact ⟨first.synced, by simp [mergeJob, hid, hlt, firstSynced], by omega⟩
      · obtain ⟨s, hs, hle⟩ := ih
        exact ⟨s, by simp [mergeJob, hid, firstSynced, hs], hle⟩

/-- Merging can only increase the `synced` of the first entry with any given
id, and never removes it. -/
theorem firstSynced_mergeJob_mono (job : Job) (l : List Job) (id : String)
    (s : Int) (h : firstSynced id l = some s) :
    ∃ t, firstSynced id (mergeJob job l) = some t ∧ s ≤ t := by
  induction l with
  | nil => simp [firstSynced] at h
  | cons first rest ih =>
      by_cases hfid : first.id = id
      · simp only [firstSynced, if_pos hfid, Option.some_inj] at h
        by_cases hid : first.id = job.id
        · by_cases hlt : first.synced < job.synced
          · refine ⟨job.synced, ?_, by omega⟩
            have hjid : job.id = id := by rw [← hid, hfid]
            simp [mergeJob, if_pos hid, if_pos hlt, firstSynced, if_pos hjid]
          · refine ⟨s, ?_, le_refl _⟩
            have hme : mergeJob job (first :: rest) = first :: rest := by
              simp [mergeJob, if_pos hid, if_neg hlt]
            rw [hme]
            simp [firstSynced, if_pos hfid, h]
        · refine ⟨s, ?_, le_refl _⟩
          simp [mergeJob, if_neg hid, firstSynced, if_pos hfid, h]
      · simp only [firstSynced, if_neg hfid] at h
        by_cases hid : first.id = job.id
        · by_cases hlt : first.synced < job.synced
          · refine ⟨s, ?_, le_refl _⟩
            have hjid : ¬ job.id = id := by rw [← hid]; exact hfid
            simp only [mergeJob, if_pos hid, if_pos hlt, firstSynced,
              if_neg hjid]
            exact h
          · refine ⟨s, ?_, le_refl _⟩
            simp only [mergeJob, if_pos hid, if_neg hlt, firstSynced,
              if_neg hfid]
            exact h
        · obtain ⟨t, ht, hle⟩ := ih h
          refine ⟨t, ?_, hle⟩
          simp only [mergeJob, if_neg hid, firstSynced, if_neg hfid]
          exact ht

/-- Merging a job whose `synced` does not beat the first same-id entry is a
no-op (the strict comparison keeps the local entry). -/
theorem mergeJob_eq_self (job : Job) (l : List Job) (s : Int)
    (h : firstSynced job.id l = some s) (hle : job.synced ≤ s) :
    mergeJob job l = l := by
  induction l with
  | nil => simp [firstSynced] at h
  | cons first rest ih =>
      by_cases hid : first.id = job.id
      · simp only [firstSynced, if_pos hid, Option.some_inj] at h
        have hnlt : ¬ first.synced < job.synced := by omega
        simp only [mergeJob, if_pos hid, if_neg hnlt]
      · simp only [firstSynced, if_neg hid] at h
        simp only [mergeJob, if_neg hid]
        rw [ih h]

/-- `firstSynced` monotonicity lifted over a whole batch fold. -/
theorem firstSynced_foldMergeRows_mono (rows : List SupabaseJobRow)
    (jobs : List Job) (id : String) (s : Int)
    (h : firstSynced id jobs = some s) :
    ∃ t, firstSynced id (foldMergeRows jobs rows) = some t ∧ s ≤ t := by
  induction rows generalizing jobs s with
  | nil => exact ⟨s, h, le_refl _⟩
  | cons row rest ih =>
      obtain ⟨t, ht, hle⟩ :=
        firstSynced_mergeJob_mono (supabaseToLocalJob row) jobs id s h
      obtain ⟨u, hu, hle2⟩ := ih _ _ ht
      exact ⟨u, hu, le_trans hle hle2⟩

/-- After a batch fold, every row of the batch has a same-id entry whose
`synced` dominates the row's. -/
theorem firstSynced_foldMergeRows_mem (rows : List SupabaseJobRow)
    (jobs : List Job) (row : SupabaseJobRow) (h : row ∈ rows) :
    ∃ s, firstSynced (supabaseToLocalJob row).id (foldMergeRows jobs rows)
          = some s ∧
        (supabaseToLocalJob row).synced ≤ s := by
  induction rows generalizing jobs with
  | nil => cases h
  | cons first rest ih =>
      rw [List.mem_cons] at h
      rcases h with h | h
      · subst h
        obtain ⟨s, hs, hle⟩ :=
          firstSynced_mergeJob_self (supabaseToLocalJob row) jobs
        obtain ⟨t, ht, hle2⟩ :=
          firstSynced_foldMergeRows_mono rest _ _ _ hs
        exact ⟨t, ht, le_trans hle hle2⟩
      · exact ih _ h

/-- A batch whose every row is already dominated in the job list folds to a
no-op. -/
theorem foldMergeRows_eq_self (rows : List SupabaseJobRow) (jobs : List Job)
    (h : ∀ row ∈ rows,
        ∃ s, firstSynced (supabaseToLocalJob row).id jobs = some s ∧
          (supabaseToLocalJob row).synced ≤ s) :
    foldMergeRows jobs rows = jobs := by
  induction rows with
  | nil => rfl
  | cons first rest ih =>
      obtain ⟨s, hs, hle⟩ := h first (by simp)
      have hfix : mergeJob (supabaseToLocalJob first) jobs = jobs :=
        mergeJob_eq_self _ _ _ hs hle
      show foldMergeRows (mergeJob (supabaseToLocalJob first) jobs) rest = jobs
      rw [hfix]
      exact ih (fun row hr => h row (by simp [hr]))

/-- Members of a batch fold are old members or converted remote rows (which
have empty sessions and zero total). -/
theorem mem_of_mem_foldMergeRows (rows : List SupabaseJobRow)
    (jobs : List Job) (x : Job) (h : x ∈ foldMergeRows jobs rows) :
    x ∈ jobs ∨ (x.sessions = [] ∧ x.totalDurationMin = 0) := by
  induction rows generalizing jobs with
  | nil => exact Or.inl h
  | cons row rest ih =>
      rcases ih _ h with h2 | h2
      · rcases mem_of_mem_mergeJob _ _ _ h2 with h3 | h3
        · exact Or.inr (by simp [h3, supabaseToLocalJob])
        · exact Or.inl h3
      · exact Or.inr h2

/-- A member protected against every row of the batch survives the fold. -/
theorem mem_foldMergeRows_of_mem (rows : List SupabaseJobRow)
    (jobs : List Job) (x : Job) (hx : x ∈ jobs)
    (h : ∀ row ∈ rows, (supabaseToLocalJob row).id = x.id →
        (supabaseToLocalJob row).synced ≤ x.synced) :
    x ∈ foldMergeRows jobs rows := by
  induction rows generalizing jobs with
  | nil => exact hx
  | cons row rest ih =>
      refine ih _ (mem_mergeJob_of_mem _ _ _ hx (h row (by simp))) ?_
      exact fun r hr => h r (by simp [hr])

/-- `removeFirstById` only removes. -/
theorem mem_of_mem_removeFirstById (id : String) (l : List Job) (x : Job)
    (h : x ∈ removeFirstById id l) : x ∈ l := by
  induction l with
  | nil => simp [removeFirstById] at h
  | cons first rest ih =>
      by_cases hid : first.id = id
      · simp only [removeFirstById, if_pos hid] at h
        exact List.mem_cons_of_mem _ h
      · simp only [removeFirstById, if_neg hid, List.mem_cons] at h
        rcases h with h | h
        · rw [h]; exact List.mem_cons_self _ _
        · exact List.mem_cons_of_mem _ (ih h)

/-- Insertion used by the `updated_at` sort does not change membership. -/
theorem mem_insertByUpdatedAt (row x : SupabaseJobRow)
    (l : List SupabaseJobRow) :
    x ∈ insertByUpdatedAt row l ↔ x = row ∨ x ∈ l := by
  induction l with
  | nil => simp [insertByUpdatedAt]
  | cons first rest ih =>
      simp only [insertByUpdatedAt]
      split
      · simp only [List.mem_cons, ih]
        tauto
      · simp [List.mem_cons]

/-- Sorting by `updated_at` does not change membership. -/
theorem mem_sortByUpdatedAt (x : SupabaseJobRow) (l : List SupabaseJobRow) :
    x ∈ sortByUpdatedAt l ↔ x ∈ l := by
  induction l with
  | nil => simp [sortByUpdatedAt]
  | cons first rest ih =>
      simp only [sortByUpdatedAt, mem_insertByUpdatedAt, List.mem_cons, ih]

/-- Fetched rows come from the remote table. -/
theorem mem_of_mem_fetchSince (remote : List SupabaseJobRow)
    (watermark : Int) (row : SupabaseJobRow)
    (h : row ∈ fetchSince remote watermark) : row ∈ remote := by
  rw [fetchSince, mem_sortByUpdatedAt] at h
  exact (List.mem_filter.mp h).1

end Lemmas

section PullLemmas

/-- The watermark after a merge loop is the left fold of `max` over the
batch's `updated_at` values. -/
theorem foldWatermark_eq_foldl_map (rows : List SupabaseJobRow)
    (watermark : Int) :
    foldWatermark watermark rows =
      (rows.map SupabaseJobRow.updated_at).foldl max watermark := by
  rw [foldWatermark, List.foldl_map]

/-- Watermark component of the merge loop. -/
theorem applyPullBatch_lastSyncAt (st : SyncState)
    (rows : List SupabaseJobRow) :
    (applyPullBatch st rows).lastSyncAt =
      foldWatermark st.lastSyncAt rows := by
  rw [applyPullBatch_eq]

/-- Jobs component of a successful pull. -/
theorem syncFromServer_true_jobs (remote : List SupabaseJobRow)
    (st : SyncState) :
    (syncFromServer remote true st).jobs =
      foldMergeRows st.jobs (fetchSince remote st.lastSyncAt) := by
  show (applyPullBatch st (fetchSince remote st.lastSyncAt)).jobs = _
  rw [applyPullBatch_eq]

/-- Watermark component of a successful pull. -/
theorem syncFromServer_true_lastSyncAt (remote : List SupabaseJobRow)
    (st : SyncState) :
    (syncFromServer remote true st).lastSyncAt =
      foldWatermark st.lastSyncAt (fetchSince remote st.lastSyncAt) := by
  show (applyPullBatch st (fetchSince remote st.lastSyncAt)).lastSyncAt = _
  rw [applyPullBatch_lastSyncAt]

end PullLemmas

/-- Concrete local job with a dirty local edit (claim C1): `synced = 0`. -/
def jC1 : Job :=
  { id := "JA", clientRef := "C1", clientName := "Client One", createdAt := 0
    sessions := [], totalDurationMin := 0, notes := "local edit"
    synced := 0, priority := 2, completed := false, completedAt := none
    location := "OnSite" }

/-- Concrete remote row for the same id as `jC1`, above the watermark. -/
def rC1 : SupabaseJobRow :=
  { id := "JA", user_id := "u1", client_ref := "C1"
    client_name := "Client One", notes := "remote version", priority := 2
    location := "OnSite", completed := false, completed_at := none
    created_at := 0, updated_at := 50, synced_at := some 100 }

/-- Sync state holding the dirty job `jC1` at the epoch watermark. -/
def stC1 : SyncState := { jobs := [jC1], lastSyncAt := 0 }

/-- Upload outcome in which every per-entity upsert fails. -/
def noUpload : String → Bool := fun _ => false

/-- Upload outcome acknowledging every upsert (claim C1 witness). -/
def allAcked : String → Bool := fun _ => true

/-- Dirty local job for the C1 witness. -/
def jC1w : Job :=
  { id := "JB", clientRef := "C1", clientName := "Client One", createdAt := 0
    sessions := [], totalDurationMin := 0, notes := "queued edit"
    synced := 0, priority := 2, completed := false, completedAt := none
    location := "OnSite" }

/-- Remote row for the C1 witness, with `synced_at` below the push time. -/
def rC1w : SupabaseJobRow :=
  { id := "JB", user_id := "u1", client_ref := "C1"
    client_name := "Client One", notes := "older remote", priority := 2
    location := "OnSite", completed := false, completed_at := none
    created_at := 0, updated_at := 50, synced_at := some 100 }

/-- Sync state for the C1 witness. -/
def stC1w : SyncState := { jobs := [jC1w], lastSyncAt := 0 }

/-- Remote row used to instantiate claim C2's theorem. -/
def rC2 : SupabaseJobRow :=
  { id := "J2", user_id := "u1", client_ref := "C1"
    client_name := "Client One", notes := "from server", priority := 3
    location := "OnSite", completed := false, completed_at := none
    created_at := 0, updated_at := 5, synced_at := some 10 }

/-- Local job with recorded sessions that the C2 witness replaces. -/
def jC2old : Job :=
  { id := "J2", clientRef := "C1", clientName := "Client One", createdAt := 0
    sessions := [⟨"s2", 0, some 60000, some 1⟩], totalDurationMin := 1
    notes := "", synced := 0, priority := 3, completed := false
    completedAt := none, location := "OnSite" }

/-- Local job for claim C3's counterexample: last confirmed sync at 5. -/
def jC3 : Job :=
  { id := "J3", clientRef := "C1", clientName := "Client One", createdAt := 0
    sessions := [], totalDurationMin := 0, notes := "local notes"
    synced := 5, priority := 3, completed := false, completedAt := none
    location := "OnSite" }

/-- Remote row for claim C3's counterexample: `updated_at = 10` is strictly
newer than the local `synced = 5`, but `synced_at = 3` is older. -/
def rC3 : SupabaseJobRow :=
  { id := "J3", user_id := "u1", client_ref := "C1"
    client_name := "Client One", notes := "remote notes", priority := 3
    location := "OnSite", completed := false, completed_at := none
    created_at := 0, updated_at := 10, synced_at := some 3 }

/-- Local job for claim C3's witness. -/
def jC3w : Job :=
  { id := "J3W", clientRef := "C1", clientName := "Client One"
    createdAt := 0, sessions := [], totalDurationMin := 0, notes := ""
    synced := 5, priority := 3, completed := false, completedAt := none
    location := "OnSite" }

/-- Remote row for claim C3's witness. -/
def rC3w : SupabaseJobRow :=
  { id := "J3W", user_id := "u1", client_ref := "C1"
    client_name := "Client One", notes := "newer remote", priority := 3
    location := "OnSite", completed := false, completed_at := none
    created_at := 0, updated_at := 20, synced_at := some 9 }

/-- First dirty job of scenario C (claim C8). -/
def jW1 : Job :=
  { id := "W1", clientRef := "C1", clientName := "Client One", createdAt := 0
    sessions := [], totalDurationMin := 0, notes := "", synced := 0
    priority := 3, completed := false, completedAt := none
    location := "OnSite" }

/-- Second dirty job of scenario C (claim C8); its upload fails. -/
def jW2 : Job :=
  { id := "W2", clientRef := "C1", clientName := "Client One", createdAt := 0
    sessions := [], totalDurationMin := 0, notes := "", synced := 0
    priority := 3, completed := false, completedAt := none
    location := "OnSite" }

/-- Third dirty job of scenario C (claim C8). -/
def jW3 : Job :=
  { id := "W3", clientRef := "C1", clientName := "Client One", createdAt := 0
    sessions := [], totalDurationMin := 0, notes := "", synced := 0
    priority := 3, completed := false, completedAt := none
    location := "OnSite" }

/-- The three dirty jobs of scenario C. -/
def jobsC8 : List Job := [jW1, jW2, jW3]

/-- Upload outcome of scenario C: the second job's upsert fails. -/
def failSecond : String → Bool := fun id => id != "W2"

/-- Concrete job for scenario A (claim C4): one open session started at
`t = 0`. -/
def jC4 : Job :=
  { id := "J1", clientRef := "C1", clientName := "Client One", createdAt := 0
    sessions := [createSession "s1" 0], totalDurationMin := 0, notes := ""
    synced := 0, priority := 3, completed := false, completedAt := none
    location := "OnSite" }

/-- Concrete closed session being edited (claim C5). -/
def sC5 : TimeSession :=
  { id := "s", startedAt := 0, endedAt := some 50000, durationMin := some 5 }

/-- Concrete dirty job for claim C9. -/
def jC9 : Job :=
  { id := "J9", clientRef := "C1", clientName := "Client One", createdAt := 0
    sessions := [], totalDurationMin := 0, notes := "edited offline"
    synced := 0, priority := 3, completed := false, completedAt := none
    location := "OnSite" }

/-- Store state for claim C9, produced by the local mutation path. -/
def stC9 : StoreState := createJob jC9 5 { jobs := [], syncQueue := [] }

/-- Upload outcome in which every per-entity upsert is acknowledged. -/
def alwaysOk : String → Bool := fun _ => true

/-- C10: for every session, `endSession` returns a copy whose duration is
`floor((end - start) / 60000)` with a minimum of 1, hence never 0 or
negative, and ending a session immediately after `createSession` yields
duration 1. -/
theorem endSession_min_one_duration (session : TimeSession) (now : Int)
    (id : String) :
    (endSession now session).durationMin
        = some (max (Int.fdiv (now - session.startedAt) 60000) 1) ∧
    1 ≤ ((endSession now session).durationMin.getD 0) ∧
    (endSession now (createSession id now)).durationMin = some 1 := by
  refine ⟨?_, ?_, ?_⟩
  · simp only [endSession]
    split
    · rename_i h
      congr 1
      omega
    · rename_i h
      congr 1
      omega
  · simp only [endSession, Option.getD_some]
    split <;> omega
  · simp [endSession, createSession]

/-- C4 counterexample: stopping a session 90 seconds after it started yields
duration 1 (`floor(1.5)`), not the duration 2 the claim states, and cached
total 1, not 2. -/
theorem handleQuickStop_ninety_seconds_not_two :
    (handleQuickStop 90000 jC4).totalDurationMin = 1 ∧
    (handleQuickStop 90000 jC4).totalDurationMin ≠ 2 ∧
    (handleQuickStop 90000 jC4).sessions.map TimeSession.durationMin
        = [some 1] ∧
    (handleQuickStop 90000 jC4).sessions.map TimeSession.durationMin
        ≠ [some 2] := by
  decide

/-- C4 amended: for a job with one session started at `start` and stopped by
the quick-stop handler 90 seconds later, the closed session's duration is 1,
the cached total is 1, and the job is flagged dirty (`synced = 0`). -/
theorem handleQuickStop_ninety_seconds (j : Job) (sid : String) (start : Int)
    (h : j.sessions = [createSession sid start]) :
    handleQuickStop (start + 90000) j =
      { j with
          sessions := [⟨sid, start, some (start + 90000), some 1⟩]
          totalDurationMin := 1
          synced := 0 } := by
  have hdiv : Int.fdiv (start + 90000 - start) 60000 = 1 := by
    have : start + 90000 - start = 90000 := by omega
    rw [this]
    decide
  simp [handleQuickStop, getActiveSession, h, createSession, endSession, hdiv,
    calculateTotalDuration, List.find?]

/-- Witness for the amended C4 theorem at the concrete scenario-A job. -/
theorem handleQuickStop_ninety_seconds_witness :
    handleQuickStop (0 + 90000) jC4 =
      { jC4 with
          sessions := [⟨"s1", 0, some (0 + 90000), some 1⟩]
          totalDurationMin := 1
          synced := 0 } :=
  handleQuickStop_ninety_seconds jC4 "s1" 0 (by decide)

/-- C5 counterexample: editing a session so that its end equals (or
precedes) its start is not rejected — `handleSave` returns an updated
session with the duration silently clamped to 1. -/
theorem sessionEditorSave_accepts_end_before_start :
    sessionEditorSave sC5 100000 (some 100000)
        = { sC5 with
            startedAt := 100000, endedAt := some 100000
            durationMin := some 1 } ∧
    sessionEditorSave sC5 100000 (some 40000)
        = { sC5 with
            startedAt := 100000, endedAt := some 40000
            durationMin := some 1 } := by
  decide

/-- C5 amended: a manual session edit is never rejected; the editor always
saves the new start and end, with duration `floor((end - start) / 60000)`
clamped below by 1 — in particular an end at or before the start is silently
saved with duration 1 rather than surfaced as an error. -/
theorem sessionEditorSave_clamps (s : TimeSession) (start e : Int) :
    (sessionEditorSave s start (some e)).durationMin
        = some (max (Int.fdiv (e - start) 60000) 1) ∧
    (sessionEditorSave s start (some e)).startedAt = start ∧
    (sessionEditorSave s start (some e)).endedAt = some e := by
  refine ⟨?_, rfl, rfl⟩
  by_cases h : 0 < Int.fdiv (e - start) 60000
  · simp only [sessionEditorSave, Option.map_some', if_pos h]
    congr 1
    omega
  · simp only [sessionEditorSave, Option.map_some', if_neg h]
    congr 1
    omega

/-- C9 counterexample: after a local mutation queues job `J9` and a push
pass in which its upload is acknowledged (its `synced` becomes the upload
time 7), the id is still in the pending-sync queue — the queue is not
drained on successful upload. -/
theorem syncQueue_not_drained :
    (syncToServerStore alwaysOk 7 stC9).jobs.map Job.synced = [7] ∧
    (syncToServerStore alwaysOk 7 stC9).syncQueue = [⟨"J9", 5⟩] := by
  decide

/-- C9 amended: `createJob` and `updateJob` put the entity's id into the
pending-sync queue, but a push pass never modifies the queue — a successful
upload does not remove the uploaded id (`removeFromSyncQueue` has no
caller), so the queue is never drained. -/
theorem syncQueue_populated_never_drained :
    (∀ (job : Job) (now : Int) (st : StoreState),
        (⟨job.id, now⟩ : SyncQueueEntry) ∈ (createJob job now st).syncQueue) ∧
    (∀ (job : Job) (now : Int) (st : StoreState),
        (⟨job.id, now⟩ : SyncQueueEntry) ∈ (updateJob job now st).syncQueue) ∧
    (∀ (uploadOk : String → Bool) (now : Int) (st : StoreState),
        (syncToServerStore uploadOk now st).syncQueue = st.syncQueue) := by
  refine ⟨?_, ?_, ?_⟩
  · intro job now st
    exact mem_putQueueEntry_self _ _
  · intro job now st
    exact mem_putQueueEntry_self _ _
  · intro uploadOk now st
    rfl

/-- C2: every job written into the local store from a remote row — by the
pull merge or by the realtime insert/update handler — has an empty session
list and cached total duration 0, regardless of the local copy it replaces:
any job present after either operation was already present locally, or has
`sessions = []` and `totalDurationMin = 0`. -/
theorem remote_accepted_jobs_have_empty_sessions :
    (∀ record : SupabaseJobRow,
        (supabaseToLocalJob record).sessions = [] ∧
        (supabaseToLocalJob record).totalDurationMin = 0) ∧
    (∀ (remote : List SupabaseJobRow) (fetchOk : Bool) (st : SyncState)
        (j : Job), j ∈ (syncFromServer remote fetchOk st).jobs →
          j ∈ st.jobs ∨ (j.sessions = [] ∧ j.totalDurationMin = 0)) ∧
    (∀ (localJobs : List Job) (eventType : RealtimeEventType)
        (newRecord : SupabaseJobRow) (oldId : String) (j : Job),
        j ∈ handleRealtimeUpdate localJobs eventType newRecord oldId →
          j ∈ localJobs ∨ (j.sessions = [] ∧ j.totalDurationMin = 0)) := by
  refine ⟨fun record => ⟨rfl, rfl⟩, ?_, ?_⟩
  · intro remote fetchOk st j hj
    cases fetchOk with
    | false => exact Or.inl hj
    | true =>
        rw [syncFromServer_true_jobs] at hj
        exact mem_of_mem_foldMergeRows _ _ _ hj
  · intro localJobs eventType newRecord oldId j hj
    cases eventType with
    | INSERT =>
        rcases mem_of_mem_mergeJob _ _ _ hj with h | h
        · exact Or.inr (by rw [h]; exact ⟨rfl, rfl⟩)
        · exact Or.inl h
    | UPDATE =>
        rcases mem_of_mem_mergeJob _ _ _ hj with h | h
        · exact Or.inr (by rw [h]; exact ⟨rfl, rfl⟩)
        · exact Or.inl h
    | DELETE => exact Or.inl (mem_of_mem_removeFirstById _ _ _ hj)

/-- Witness for C2: a realtime update accepted over `jC2old` (which holds a
recorded session) yields a job with empty sessions and zero total. -/
theorem remote_accepted_jobs_have_empty_sessions_witness :
    supabaseToLocalJob rC2 ∈ [jC2old] ∨
      ((supabaseToLocalJob rC2).sessions = [] ∧
        (supabaseToLocalJob rC2).totalDurationMin = 0) :=
  remote_accepted_jobs_have_empty_sessions.2.2 [jC2old] RealtimeEventType.UPDATE
    rC2 "" (supabaseToLocalJob rC2) (by decide)

/-- C3 counterexample: the remote row `rC3` has `updated_at = 10`, strictly
newer than the local `synced = 5`, so the claim requires the local entity to
be replaced; the code compares `synced_at` (here 3, not newer) and keeps the
local entity unchanged. -/
theorem mergeJob_ignores_updated_at :
    mergeJob (supabaseToLocalJob rC3) [jC3] = [jC3] ∧
    jC3.synced < rC3.updated_at ∧
    supabaseToLocalJob rC3 ≠ jC3 := by
  decide

/-- C3 amended: the pull merge replaces the local entity if and only if the
remote's `synced_at` (not its `updated_at`), taken as 0 when null, is
strictly greater than the local entity's `synced`; equal values never
replace. -/
theorem mergeJob_replaces_iff_synced_at_newer (j : Job) (r : SupabaseJobRow)
    (hid : r.id = j.id) :
    mergeJob (supabaseToLocalJob r) [j] =
      if j.synced < r.synced_at.getD 0 then [supabaseToLocalJob r]
      else [j] := by
  have hjid : j.id = (supabaseToLocalJob r).id := by
    rw [supabaseToLocalJob]
    exact hid.symm
  by_cases hlt : j.synced < r.synced_at.getD 0
  · rw [if_pos hlt]
    simp only [mergeJob, if_pos hjid]
    rw [if_pos (show j.synced < (supabaseToLocalJob r).synced from hlt)]
  · rw [if_neg hlt]
    simp only [mergeJob, if_pos hjid]
    rw [if_neg (show ¬ j.synced < (supabaseToLocalJob r).synced from hlt)]

/-- Witness for the amended C3 theorem at concrete local and remote
versions. -/
theorem mergeJob_replaces_iff_synced_at_newer_witness :
    mergeJob (supabaseToLocalJob rC3w) [jC3w] =
      if jC3w.synced < rC3w.synced_at.getD 0 then [supabaseToLocalJob rC3w]
      else [jC3w] :=
  mergeJob_replaces_iff_synced_at_newer jC3w rC3w rfl

/-- C6: the watermark starts at the epoch, never decreases under the pull
merge loop, a full pull (successful or failed) or a `forceSync`; after a
successful pull it equals the left fold of `max` of its previous value over
the fetched batch's `updated_at` values (so it is determined by the batch
and the previous value, never by the wall clock); a failed pull leaves the
whole state unchanged. -/
theorem watermark_monotone_and_max_of_batch :
    initialLastSyncAt = 0 ∧
    (∀ (st : SyncState) (rows : List SupabaseJobRow),
        st.lastSyncAt ≤ (applyPullBatch st rows).lastSyncAt) ∧
    (∀ (remote : List SupabaseJobRow) (fetchOk : Bool) (st : SyncState),
        st.lastSyncAt ≤ (syncFromServer remote fetchOk st).lastSyncAt) ∧
    (∀ (uploadOk : String → Bool) (now : Int)
        (remote : List SupabaseJobRow) (fetchOk : Bool) (st : SyncState),
        st.lastSyncAt ≤ (forceSync uploadOk now remote fetchOk st).lastSyncAt) ∧
    (∀ (remote : List SupabaseJobRow) (st : SyncState),
        (syncFromServer remote true st).lastSyncAt =
          ((fetchSince remote st.lastSyncAt).map
              SupabaseJobRow.updated_at).foldl max st.lastSyncAt) ∧
    (∀ (remote : List SupabaseJobRow) (st : SyncState),
        syncFromServer remote false st = st) := by
  have hbatch : ∀ (st : SyncState) (rows : List SupabaseJobRow),
      st.lastSyncAt ≤ (applyPullBatch st rows).lastSyncAt := by
    intro st rows
    rw [applyPullBatch_lastSyncAt]
    exact le_foldWatermark _ _
  have hpull : ∀ (remote : List SupabaseJobRow) (fetchOk : Bool)
      (st : SyncState),
      st.lastSyncAt ≤ (syncFromServer remote fetchOk st).lastSyncAt := by
    intro remote fetchOk st
    cases fetchOk with
    | false => exact le_refl _
    | true =>
        rw [syncFromServer_true_lastSyncAt]
        exact le_foldWatermark _ _
  refine ⟨rfl, hbatch, hpull, ?_, ?_, fun remote st => rfl⟩
  · intro uploadOk now remote fetchOk st
    exact hpull remote fetchOk { st with jobs := syncToServer uploadOk now st.jobs }
  · intro remote st
    rw [syncFromServer_true_lastSyncAt, foldWatermark_eq_foldl_map]

/-- C7: applying the same remote pull batch twice through the merge loop
leaves the local job list identical to its state after the first
application (in particular no duplicate entities appear) and the watermark
unchanged on replay. -/
theorem applyPullBatch_idempotent (st : SyncState)
    (rows : List SupabaseJobRow) :
    applyPullBatch (applyPullBatch st rows) rows = applyPullBatch st rows := by
  have hjobs : foldMergeRows (foldMergeRows st.jobs rows) rows
      = foldMergeRows st.jobs rows :=
    foldMergeRows_eq_self _ _
      (fun row hr => firstSynced_foldMergeRows_mem rows st.jobs row hr)
  have hwm : foldWatermark (foldWatermark st.lastSyncAt rows) rows
      = foldWatermark st.lastSyncAt rows :=
    foldWatermark_eq_self _ _
      (fun row hr => mem_le_foldWatermark rows st.lastSyncAt row hr)
  rw [applyPullBatch_eq rows st, applyPullBatch_eq]
  simp only [SyncState.mk.injEq]
  exact ⟨hjobs, hwm⟩

/-- C8: a push pass over a job list preserves its length and acts pointwise:
a dirty job whose upload is acknowledged is marked confirmed-synced with the
nonzero timestamp `now`; a dirty job whose upload fails keeps `synced = 0`
(so the next pass's dirty filter retries it); a non-dirty job is untouched.
Hence exactly the acknowledged jobs are marked synced and successes are not
rolled back by other failures. -/
theorem syncToServer_marks_exactly_acknowledged (uploadOk : String → Bool)
    (now : Int) (jobs : List Job) (i : Nat) (j : Job)
    (hnow : 0 < now) (hj : jobs[i]? = some j) :
    (syncToServer uploadOk now jobs).length = jobs.length ∧
    ((j.synced = 0 ∧ uploadOk j.id = true) →
        (syncToServer uploadOk now jobs)[i]? = some { j with synced := now } ∧
          ({ j with synced := now } : Job).synced ≠ 0) ∧
    ((j.synced = 0 ∧ uploadOk j.id = false) →
        (syncToServer uploadOk now jobs)[i]? = some j ∧ j.synced = 0) ∧
    (¬ j.synced = 0 → (syncToServer uploadOk now jobs)[i]? = some j) := by
  have hmap : (syncToServer uploadOk now jobs)[i]? =
      some (if j.synced = 0 ∧ uploadOk j.id then { j with synced := now }
            else j) := by
    simp [syncToServer, List.getElem?_map, hj]
  refine ⟨by simp [syncToServer], ?_, ?_, ?_⟩
  · rintro ⟨h0, hok⟩
    refine ⟨?_, ?_⟩
    · rw [hmap, if_pos ⟨h0, by rw [hok]⟩]
    · show now ≠ 0
      omega
  · rintro ⟨h0, hnok⟩
    refine ⟨?_, h0⟩
    rw [hmap, if_neg ?_]
    rintro ⟨-, hok⟩
    rw [hnok] at hok
    cases hok
  · intro hne
    rw [hmap, if_neg ?_]
    rintro ⟨h0, -⟩
    exact hne h0

/-- Witness for C8 at scenario C: three dirty jobs, the second upload fails;
jobs 1 and 3 come out marked synced at time 7, job 2 stays dirty. -/
theorem syncToServer_marks_exactly_acknowledged_witness :
    (0 : Int) < 7 ∧
    (syncToServer failSecond 7 jobsC8)[0]? = some { jW1 with synced := 7 } ∧
    (syncToServer failSecond 7 jobsC8)[1]? = some jW2 ∧
    (syncToServer failSecond 7 jobsC8)[2]? = some { jW3 with synced := 7 } := by
  refine ⟨by norm_num, ?_, ?_, ?_⟩
  · exact ((syncToServer_marks_exactly_acknowledged failSecond 7 jobsC8 0 jW1
      (by norm_num) (by decide)).2.1 ⟨by decide, by decide⟩).1
  · exact ((syncToServer_marks_exactly_acknowledged failSecond 7 jobsC8 1 jW2
      (by norm_num) (by decide)).2.2.1 ⟨by decide, by decide⟩).1
  · exact ((syncToServer_marks_exactly_acknowledged failSecond 7 jobsC8 2 jW3
      (by norm_num) (by decide)).2.1 ⟨by decide, by decide⟩).1

/-- C1 counterexample: `jC1` is dirty (`synced = 0`) and `forceSync` is the
pass about to upload it, but its upsert fails; the pull of the same pass
then overwrites it with the incoming remote version `rC1`, discarding the
unsaved local edit. -/
theorem forceSync_failed_push_overwrites_dirty :
    jC1.synced = 0 ∧
    (forceSync noUpload 200 [rC1] true stC1).jobs = [supabaseToLocalJob rC1] ∧
    jC1 ∉ (forceSync noUpload 200 [rC1] true stC1).jobs ∧
    (supabaseToLocalJob rC1).notes ≠ jC1.notes := by
  decide

/-- C1 amended: `forceSync` attempts the push pass before applying any pull
result (its definition is push-then-pull), and a dirty job whose upload is
acknowledged survives the pull of the same pass marked with the nonzero
push time `now`, provided every remote row for its id carries
`synced_at ≤ now`; a dirty job whose upload fails is not protected and can
be overwritten by the pull of the same pass. -/
theorem forceSync_push_before_pull (uploadOk : String → Bool) (now : Int)
    (remote : List SupabaseJobRow) (fetchOk : Bool) (st : SyncState)
    (j : Job) (hmem : j ∈ st.jobs) (hdirty : j.synced = 0)
    (hok : uploadOk j.id = true) (hnow : 0 < now)
    (hremote : ∀ r ∈ remote, r.id = j.id → r.synced_at.getD 0 ≤ now) :
    forceSync uploadOk now remote fetchOk st =
      syncFromServer remote fetchOk
        { st with jobs := syncToServer uploadOk now st.jobs } ∧
    ({ j with synced := now } : Job) ∈
      (forceSync uploadOk now remote fetchOk st).jobs ∧
    ({ j with synced := now } : Job).synced ≠ 0 := by
  have hpush : ({ j with synced := now } : Job) ∈
      syncToServer uploadOk now st.jobs := by
    rw [syncToServer, List.mem_map]
    refine ⟨j, hmem, ?_⟩
    show (if j.synced = 0 ∧ uploadOk j.id = true
        then ({ j with synced := now } : Job) else j) = { j with synced := now }
    rw [if_pos ⟨hdirty, hok⟩]
  refine ⟨rfl, ?_, show now ≠ 0 by omega⟩
  cases fetchOk with
  | false => exact hpush
  | true =>
      have hjobs : (forceSync uploadOk now remote true st).jobs
          = foldMergeRows (syncToServer uploadOk now st.jobs)
              (fetchSince remote st.lastSyncAt) := by
        show (syncFromServer remote true
          { st with jobs := syncToServer uploadOk now st.jobs }).jobs = _
        rw [syncFromServer_true_jobs]
      rw [hjobs]
      refine mem_foldMergeRows_of_mem _ _ _ hpush ?_
      intro row hrow hid
      have hr : row ∈ remote := mem_of_mem_fetchSince _ _ _ hrow
      exact hremote row hr hid

/-- Witness for the amended C1 theorem: a dirty job whose upload is
acknowledged at time 200 survives a `forceSync` whose pull carries a remote
row for its id with `synced_at = 100`. -/
theorem forceSync_push_before_pull_witness :
    forceSync allAcked 200 [rC1w] true stC1w =
      syncFromServer [rC1w] true
        { stC1w with jobs := syncToServer allAcked 200 stC1w.jobs } ∧
    ({ jC1w with synced := 200 } : Job) ∈
      (forceSync allAcked 200 [rC1w] true stC1w).jobs ∧
    ({ jC1w with synced := 200 } : Job).synced ≠ 0 :=
  forceSync_push_before_pull allAcked 200 [rC1w] true stC1w jC1w
    (by decide) (by decide) (by decide) (by decide) (by decide)

end FieldCapture
